import Mathlib

/-!
Shallow embedding of the MPD database-query core (src/dbUtils.c) and the
playlist metadata loader/serializer (src/PlaylistDatabase.cxx), together with
proofs settling the specification claims.  C strings are modelled as
`List Char`, machine integers as `Int`/`Nat` (no overflow is relevant to any
claim), heap ownership of needle copies as an explicit list of live
allocations, and the traversal engine as a fold over the depth-first visit
event sequence.
-/

namespace Mpd

/-! ## String primitives (modelling string.h / utils.c helpers) -/

/-- `strDupToUpper` from utils.c: duplicate a string, upper-casing each
character (ASCII `toupper`). -/
def strDupToUpper (s : List Char) : List Char := s.map Char.toUpper

/-- `strcasecmp(a,b) == 0`: ASCII case-insensitive equality. -/
def strCaseEq (a b : List Char) : Bool :=
  decide (a.map Char.toUpper = b.map Char.toUpper)

/-- Does `hay` start with `needle`? (helper for `strstr`). -/
def startsWithStr : List Char → List Char → Bool
  | _, [] => true
  | [], _ :: _ => false
  | c :: cs, d :: ds => decide (c = d) && startsWithStr cs ds

/-- `strstr(hay, needle) != NULL`: `needle` occurs somewhere in `hay`. -/
def strstr : List Char → List Char → Bool
  | hay, needle =>
    if startsWithStr hay needle then true
    else match hay with
      | [] => false
      | _ :: rest => strstr rest needle

/-- `StripLeft` from util/StringStrip.cxx: drop leading characters with code
`<= 0x20` (whitespace or NUL). -/
def stripLeft : List Char → List Char
  | [] => []
  | c :: rest => if c.toNat ≤ 32 then stripLeft rest else c :: rest

/-- C `isspace` for the default locale. -/
def isSpaceChar (c : Char) : Bool :=
  decide (c = ' ' ∨ c = '\t' ∨ c = '\n' ∨ c = '\x0b' ∨ c = '\x0c' ∨ c = '\r')

/-- Leading-whitespace skip performed by `strtol`. -/
def skipSpaces : List Char → List Char
  | [] => []
  | c :: rest => if isSpaceChar c then skipSpaces rest else c :: rest

/-- Accumulate decimal digits until the first non-digit (the digit-consuming
loop of `strtol`). -/
def parseDigits : List Char → Nat → Nat
  | [], acc => acc
  | c :: rest, acc =>
    if 48 ≤ c.toNat ∧ c.toNat ≤ 57 then parseDigits rest (acc * 10 + (c.toNat - 48))
    else acc

/-- `strtol(s, NULL, 10)`: skip whitespace, optional sign, decimal digits. -/
def strtol (s : List Char) : Int :=
  match skipSpaces s with
  | [] => 0
  | c :: rest =>
    if c = '-' then -(parseDigits rest 0 : Int)
    else if c = '+' then (parseDigits rest 0 : Int)
    else (parseDigits (c :: rest) 0 : Int)

/-- Fuel-indexed decimal printer (the fuel makes the definition structurally
recursive, hence kernel-computable). -/
def natDigitsAux : Nat → Nat → List Char
  | 0, _ => []
  | fuel + 1, n =>
    if n < 10 then [Nat.digitChar n]
    else natDigitsAux fuel (n / 10) ++ [Nat.digitChar (n % 10)]

/-- Decimal representation of a natural number (`printf %li` for nonnegative
values). -/
def natDigits (n : Nat) : List Char := natDigitsAux (n + 1) n

/-- `strchr(s, c)` as an index: position of the first occurrence of `c`. -/
def strchrIdx : List Char → Char → Option Nat
  | [], _ => none
  | d :: rest, c => if d = c then some 0 else (strchrIdx rest c).map (· + 1)

/-! ## Song / tag data model (song.h, tag.h shapes used by dbUtils.c) -/

/-- A single typed tag value (`MpdTagItem`). -/
structure TagItem where
  type : Int
  value : List Char
deriving DecidableEq

/-- `MpdTag`: ordered tag items plus a duration (`time`), negative meaning
"unknown". -/
structure MpdTag where
  items : List TagItem
  time : Int
deriving DecidableEq

/-- A song: URL plus optional tag record.  `getSongUrl` (song.c, not part of
this excerpt) is modelled from the spec as returning the song's URL string. -/
structure Song where
  url : List Char
  tag : Option MpdTag
deriving DecidableEq

def getSongUrl (s : Song) : List Char := s.url

/-- The tag items of a song, empty when it has no tag record. -/
def songTagItems (s : Song) : List TagItem :=
  match s.tag with
  | none => []
  | some t => t.items

/-! ## Tag type resolver (dbUtils.c lines 30-69) -/

/-- Modelled from the spec: the known tag-type names (`mpdTagItemKeys` from
tag.c, which is not part of this excerpt); the resolver compares
case-insensitively against each in order. -/
def mpdTagItemKeys : List (List Char) :=
  ["artist".toList, "album".toList, "title".toList, "track".toList,
   "name".toList, "genre".toList, "date".toList, "composer".toList,
   "performer".toList, "comment".toList, "disc".toList]

def TAG_NUM_OF_ITEM_TYPES : Int := mpdTagItemKeys.length

def LOCATE_TAG_FILE_TYPE : Int := TAG_NUM_OF_ITEM_TYPES + 10

def LOCATE_TAG_ANY_TYPE : Int := TAG_NUM_OF_ITEM_TYPES + 20

/-- `getLocateTagItemType`: the `file`/`filename` pseudo-keys, the `any`
pseudo-key, then the first matching tag-type name; otherwise -1.  (The two
file keys are modelled from the spec, the `SONG_FILE` macro being outside the
excerpt.) -/
def getLocateTagItemType (str : List Char) : Int :=
  if strCaseEq str ("file".toList) || strCaseEq str ("filename".toList) then
    LOCATE_TAG_FILE_TYPE
  else if strCaseEq str ("any".toList) then LOCATE_TAG_ANY_TYPE
  else match mpdTagItemKeys.findIdx? (fun k => strCaseEq str k) with
    | some i => (i : Int)
    | none => -1

/-! ## Criterion set builder (dbUtils.c lines 71-135) -/

/-- `LocateTagItem`: a resolved criterion, owning its needle copy. -/
structure LocateTagItem where
  tagType : Int
  needle : List Char
deriving DecidableEq

/-- The two construction failure paths of
`newLocateTagItemArrayFromArgArray`: the early odd-count return (line 115)
and the `goto fail` unwind from a key that does not resolve (line 134).  Both
are `-1` in C; the spec's error taxonomy distinguishes them by path. -/
inductive BuildError where
  | oddArgumentCount : BuildError
  | unknownTagType : List Char → BuildError
deriving DecidableEq

/-- Group an even-length token list into (key, value) pairs. -/
def pairList : List (List Char) → List (List Char × List Char)
  | a :: b :: rest => (a, b) :: pairList rest
  | _ => []

/-- The construction loop (dbUtils.c lines 119-123 with the `fail` unwind at
127-134).  The second component is the list of needle allocations still live
at return: on success the needles owned by the produced items, on failure
what remains after the unwind loop frees every needle duplicated so far. -/
def buildLoop :
    List (List Char × List Char) → List LocateTagItem →
    Except (List Char) (List LocateTagItem) × List (List Char)
  | [], acc => (.ok acc, acc.map (·.needle))
  | (k, v) :: rest, acc =>
    if getLocateTagItemType k < 0 then
      (.error k,
       (acc.map (·.needle)).foldl (fun heap n => heap.erase n) (acc.map (·.needle)))
    else buildLoop rest (acc ++ [⟨getLocateTagItemType k, v⟩])

/-- `newLocateTagItemArrayFromArgArray`.  An error result models the C
function returning -1 with `*arrayRet` not pointing at any constructed set
(left untouched for the odd count, set to NULL after the unwind). -/
def newLocateTagItemArrayFromArgArray (args : List (List Char)) :
    Except BuildError (List LocateTagItem) × List (List Char) :=
  if args.length = 0 then (.ok [], [])
  else if args.length % 2 ≠ 0 then (.error .oddArgumentCount, [])
  else match buildLoop (pairList args) [] with
    | (.ok items, heap) => (.ok items, heap)
    | (.error k, heap) => (.error (.unknownTagType k), heap)

/-! ## Matchers (dbUtils.c lines 167-199 and 246-271) -/

/-- The tag-item scan of `tagItemFoundAndMatches` (lines 260-268): some item
passing the type filter whose value equals the needle.  A song without a tag
record scans an empty list (the `!song->tag` early return). -/
def exactTagScan (song : Song) (ty : Int) (str : List Char) : Bool :=
  (songTagItems song).any fun it =>
    (decide (ty = LOCATE_TAG_ANY_TYPE) || decide (it.type = ty)) && decide (it.value = str)

/-- `tagItemFoundAndMatches`: the exact matcher for one criterion. -/
def tagItemFoundAndMatches (song : Song) (ty : Int) (str : List Char) : Bool :=
  if ty = LOCATE_TAG_FILE_TYPE ∨ ty = LOCATE_TAG_ANY_TYPE then
    if str = getSongUrl song then true
    else if ty = LOCATE_TAG_FILE_TYPE then false
    else exactTagScan song ty str
  else exactTagScan song ty str

/-- The tag-item scan of `strstrSearchTag` (lines 186-196): the needle `str`
(already upper-cased by the caller) occurring in the upper-cased item value. -/
def subTagScan (song : Song) (ty : Int) (str : List Char) : Bool :=
  (songTagItems song).any fun it =>
    (decide (ty = LOCATE_TAG_ANY_TYPE) || decide (it.type = ty)) &&
      strstr (strDupToUpper it.value) str

/-- `strstrSearchTag`: the case-insensitive substring matcher; `str` is the
needle already upper-cased by `searchForSongsIn`. -/
def strstrSearchTag (song : Song) (ty : Int) (str : List Char) : Bool :=
  if ty = LOCATE_TAG_FILE_TYPE ∨ ty = LOCATE_TAG_ANY_TYPE then
    if strstr (strDupToUpper (getSongUrl song)) str then true
    else if ty = LOCATE_TAG_FILE_TYPE then false
    else subTagScan song ty str
  else subTagScan song ty str

/-- The spec's description of the exact matcher (§4.3), stated independently
of the code for the refinement claim C7. -/
def specExactMatch (song : Song) (ty : Int) (str : List Char) : Prop :=
  if ty = LOCATE_TAG_FILE_TYPE then str = song.url
  else if ty = LOCATE_TAG_ANY_TYPE then
    str = song.url ∨ ∃ it ∈ songTagItems song, it.value = str
  else ∃ it ∈ songTagItems song, it.type = ty ∧ it.value = str

/-! ## Catalog tree and traversal engine -/

/-- A catalog directory: optional path (the implicit root has none), child
directories, directly contained songs. -/
inductive Directory : Type where
  | mk : Option (List Char) → List Directory → List Song → Directory

def Directory.path : Directory → Option (List Char)
  | .mk p _ _ => p

def Directory.children : Directory → List Directory
  | .mk _ c _ => c

def Directory.songs : Directory → List Song
  | .mk _ _ s => s

/-- One traversal callback invocation. -/
inductive VisitEvent : Type where
  | dir : Directory → VisitEvent
  | song : Song → VisitEvent

mutual

/-- Modelled from the spec (§4.4, directory.c not being part of the excerpt):
the depth-first visit event sequence of the subtree rooted at `d` — the
directory itself, its songs, then its children recursively. -/
def visitEvents : Directory → List VisitEvent
  | .mk p cs songs =>
    .dir (.mk p cs songs) :: (songs.map .song ++ visitEventsList cs)

def visitEventsList : List Directory → List VisitEvent
  | [] => []
  | c :: rest => visitEvents c ++ visitEventsList rest

end

/-- The songs occurring in an event sequence, in visit order. -/
def songsOfEvents (es : List VisitEvent) : List Song :=
  es.filterMap fun e =>
    match e with
    | .song s => some s
    | .dir _ => none

/-- All songs of the subtree rooted at `d`, in traversal order. -/
def allSongsOf (d : Directory) : List Song := songsOfEvents (visitEvents d)

mutual

/-- Modelled from the spec (§6 `lookupDirectory`): find the directory whose
path equals `p`, depth-first. -/
def findDirectory : Directory → List Char → Option Directory
  | .mk q cs songs, p =>
    if q = some p then some (.mk q cs songs) else findDirectoryList cs p

def findDirectoryList : List Directory → List Char → Option Directory
  | [], _ => none
  | c :: rest, p =>
    match findDirectory c p with
    | some d => some d
    | none => findDirectoryList rest p

end

inductive TraverseError : Type where
  | directoryNotFound : TraverseError
deriving DecidableEq

/-- Dispatch one visit event to the per-song / per-directory callbacks. -/
def visitStep (onSong : σ → Song → σ) (onDir : σ → Directory → σ)
    (s : σ) (e : VisitEvent) : σ :=
  match e with
  | .song sg => onSong s sg
  | .dir d => onDir s d

/-- Run both callbacks over the subtree rooted at `d`. -/
def walkDir (onSong : σ → Song → σ) (onDir : σ → Directory → σ)
    (d : Directory) (s : σ) : σ :=
  (visitEvents d).foldl (visitStep onSong onDir) s

/-- Modelled from the spec (§4.4): `traverseAllIn`.  `name = none` walks the
whole catalog; a name that resolves to no directory is a `DirectoryNotFound`
reported without invoking either visitor (the context `s` is returned as the
caller left it, matching the by-reference context of the C engine). -/
def traverseAllIn (db : Directory) (name : Option (List Char))
    (onSong : σ → Song → σ) (onDir : σ → Directory → σ) (s : σ) :
    Except TraverseError Unit × σ :=
  match name with
  | none => (.ok (), walkDir onSong onDir db s)
  | some p =>
    match findDirectory db p with
    | none => (.error .directoryNotFound, s)
    | some d => (.ok (), walkDir onSong onDir d s)

/-! ## Operation layer (dbUtils.c lines 143-366) -/

/-- `countSongsIn` (lines 348-356): accumulates `directory->songs` counts via
the per-directory visitor and returns the counter, ignoring the traversal's
return value. -/
def countSongsIn (db : Directory) (name : Option (List Char)) : Nat :=
  (traverseAllIn db name (fun c _ => c) (fun c d => c + d.songs.length) 0).2

/-- `sumSongTime` (lines 332-340): add known durations, skip unknown
(negative) ones. -/
def sumSongTime (t : Int) (song : Song) : Int :=
  match song.tag with
  | some tg => if 0 ≤ tg.time then t + tg.time else t
  | none => t

/-- `sumSongTimesIn` (lines 358-366): like `countSongsIn`, the traversal
result is ignored and the accumulator returned. -/
def sumSongTimesIn (db : Directory) (name : Option (List Char)) : Int :=
  (traverseAllIn db name sumSongTime (fun t _ => t) 0).2

/-- The conjunction of all criteria under the exact matcher
(`findInDirectory`'s loop, lines 278-283). -/
def condsMatch (items : List LocateTagItem) (song : Song) : Bool :=
  items.all fun it => tagItemFoundAndMatches song it.tagType it.needle

/-- `findSongsIn` (lines 290-298); the emitted song records are modelled by
their URLs, in emission order. -/
def findSongsIn (db : Directory) (name : Option (List Char))
    (items : List LocateTagItem) : Except TraverseError Unit × List (List Char) :=
  traverseAllIn db name
    (fun out song => if condsMatch items song then out ++ [getSongUrl song] else out)
    (fun out _ => out) []

/-- The needle upper-casing `searchForSongsIn` performs before its traversal
(lines 226-229). -/
def upperizeItems (items : List LocateTagItem) : List LocateTagItem :=
  items.map fun it => { it with needle := strDupToUpper it.needle }

/-- The conjunction of all criteria under the substring matcher
(`searchInDirectory`'s loop, lines 206-211); the items are expected to carry
already upper-cased needles. -/
def subCondsMatch (items : List LocateTagItem) (song : Song) : Bool :=
  items.all fun it => strstrSearchTag song it.tagType it.needle

/-- `searchForSongsIn` (lines 218-244): replace every needle by an
upper-cased copy, traverse, then restore the original needles from the saved
pointers whether or not the traversal succeeded.  The last component is the
criterion array as the caller observes it on return. -/
def searchForSongsIn (db : Directory) (name : Option (List Char))
    (items : List LocateTagItem) :
    (Except TraverseError Unit × List (List Char)) × List LocateTagItem :=
  let originalNeedles := items.map (·.needle)
  let upperItems := upperizeItems items
  let ret := traverseAllIn db name
    (fun out song => if subCondsMatch upperItems song then out ++ [getSongUrl song] else out)
    (fun out _ => out) []
  let restored := (upperItems.zip originalNeedles).map fun p => { p.1 with needle := p.2 }
  (ret, restored)

/-! ## Distinct-value collector and enumerate-unique (dbUtils.c 368-443) -/

/-- Modelled from the spec (§2, tagTracker.c not being part of the excerpt):
the Distinct-Value Collector's visited state, as (type, value) pairs in
first-visit order. -/
abbrev Tracker := List (Int × List Char)

/-- Modelled from the spec: mark a value of a type visited; already-visited
values are not re-inserted, preserving first-seen order. -/
def visitInTagTracker (ty : Int) (v : List Char) (st : Tracker) : Tracker :=
  if (ty, v) ∈ st then st else st ++ [(ty, v)]

/-- Modelled from the spec: clear the visited flags of one type. -/
def resetVisitedFlagsInTagTracker (ty : Int) (st : Tracker) : Tracker :=
  st.filter fun p => decide (p.1 ≠ ty)

/-- Modelled from the spec: the visited values of one type, drained in
first-seen order. -/
def printVisitedInTagTracker (ty : Int) (st : Tracker) : List (List Char) :=
  (st.filter fun p => decide (p.1 = ty)).map (·.2)

/-- The item loop of `visitTag` (lines 398-402): record every item value of
the requested type. -/
def recordSong (ty : Int) (tr : Tracker) (song : Song) : Tracker :=
  (songTagItems song).foldl
    (fun t it => if it.type = ty then visitInTagTracker ty it.value t else t) tr

/-- The state threaded through `listAllUniqueTags`: the collector plus the
lines printed so far. -/
structure ListState where
  tracker : Tracker
  out : List (List Char)
deriving DecidableEq

/-- `visitTag` (lines 385-403): for the `FILE` pseudo-type print the song URL
directly; otherwise record the matching item values into the collector. -/
def visitTag (song : Song) (tagType : Int) (st : ListState) : ListState :=
  if tagType = LOCATE_TAG_FILE_TYPE then { st with out := st.out ++ [getSongUrl song] }
  else { st with tracker := recordSong tagType st.tracker song }

/-- `listUniqueTagsInDirectory` (lines 405-420): visit the tag only when
every conditional matches exactly. -/
def listUniqueTagsInDirectory (conds : List LocateTagItem) (tagType : Int)
    (st : ListState) (song : Song) : ListState :=
  if condsMatch conds song then visitTag song tagType st else st

/-- Truncation to `mpd_sint8`, the type of `ListCommandItem.tagType`. -/
def toSint8 (x : Int) : Int := (x + 128) % 256 - 128

/-- `listAllUniqueTags` (lines 422-443): reset the collector when
`0 <= type <= TAG_NUM_OF_ITEM_TYPES`, traverse the whole catalog, drain under
the same bound.  Returns (traversal result, final collector state, printed
lines). -/
def listAllUniqueTags (db : Directory) (ty : Int) (conds : List LocateTagItem)
    (tr0 : Tracker) : Except TraverseError Unit × Tracker × List (List Char) :=
  let tagType := toSint8 ty
  let tr1 := if 0 ≤ ty ∧ ty ≤ TAG_NUM_OF_ITEM_TYPES then
    resetVisitedFlagsInTagTracker ty tr0 else tr0
  let r := traverseAllIn db none (listUniqueTagsInDirectory conds tagType)
    (fun s _ => s) ⟨tr1, []⟩
  let st := r.2
  let out := if 0 ≤ ty ∧ ty ≤ TAG_NUM_OF_ITEM_TYPES then
    st.out ++ printVisitedInTagTracker ty st.tracker else st.out
  (r.1, st.tracker, out)

/-! ## Spec-side helpers for the enumerate-unique claims -/

/-- Insert a value unless already present (first-seen deduplication step). -/
def insertNew (st : List (List Char)) (v : List Char) : List (List Char) :=
  if v ∈ st then st else st ++ [v]

/-- First-seen-order deduplication of a value stream. -/
def firstSeenDedup (vs : List (List Char)) : List (List Char) :=
  vs.foldl insertNew []

/-- The values of the requested type carried by one song. -/
def valuesOfType (ty : Int) (s : Song) : List (List Char) :=
  (songTagItems s).filterMap fun it => if it.type = ty then some it.value else none

/-- The stream of requested-type values of all criteria-matching songs, in
traversal order. -/
def matchedTagValues (db : Directory) (ty : Int) (conds : List LocateTagItem) :
    List (List Char) :=
  ((allSongsOf db).filter (condsMatch conds)).flatMap (valuesOfType ty)

/-! ## Playlist metadata persisted format (src/PlaylistDatabase.cxx) -/

/-- A playlist record: name and modification timestamp in Unix seconds; a
negative value is the "unset" sentinel (`IsNegative(pi.mtime)` on the
`system_clock::time_point`). -/
structure PlaylistInfo where
  name : List Char
  mtime : Int
deriving DecidableEq

/-- The section marker macro `PLAYLIST_META_BEGIN` (PlaylistDatabase.hxx,
outside the excerpt); modelled from the spec's "fixed marker line followed by
the playlist name". -/
def PLAYLIST_META_BEGIN : List Char := "playlist_begin: ".toList

/-- `playlist_vector_save` (lines 32-42): one section per vector entry, the
`mtime` line emitted only when the timestamp is not negative.  The text
stream is modelled as the list of its lines. -/
def playlist_vector_save (pv : List PlaylistInfo) : List (List Char) :=
  pv.flatMap fun pi =>
    (PLAYLIST_META_BEGIN ++ pi.name) ::
      ((if 0 ≤ pi.mtime then [("mtime: ".toList) ++ natDigits pi.mtime.toNat] else []) ++
        ["playlist_end".toList])

inductive LoadError where
  | malformedPersistedRecord : List Char → LoadError
deriving DecidableEq

/-- The read loop of `playlist_metadata_load` (lines 52-67).  Note that
`*colon++ = 0` truncates `line` at its first colon before the `mtime`
comparison, so the second `throw` (line 65) names only the part of the line
before the colon.  Returns the finished record and the unconsumed lines. -/
def loadLoop : List (List Char) → PlaylistInfo →
    Except LoadError (PlaylistInfo × List (List Char))
  | [], pm => .ok (pm, [])
  | line :: rest, pm =>
    if line = "playlist_end".toList then .ok (pm, rest)
    else
      match strchrIdx line ':' with
      | none => .error (.malformedPersistedRecord line)
      | some i =>
        if i = 0 then .error (.malformedPersistedRecord line)
        else if line.take i = "mtime".toList then
          loadLoop rest { pm with mtime := strtol (stripLeft (line.drop (i + 1))) }
        else .error (.malformedPersistedRecord (line.take i))

/-- Modelled from the spec (§3, PlaylistVector.cxx being outside the
excerpt): update-or-insert keyed by name. -/
def pv_UpdateOrInsert (pv : List PlaylistInfo) (pm : PlaylistInfo) :
    List PlaylistInfo :=
  if pv.any fun q => decide (q.name = pm.name) then
    pv.map fun q => if q.name = pm.name then pm else q
  else pv ++ [pm]

/-- `playlist_metadata_load` (lines 44-70): parse one section body (the lines
after the marker line) into a record named `name` — the constructor leaves
the timestamp at the unset sentinel — and update-or-insert it. -/
def playlist_metadata_load (lines : List (List Char)) (pv : List PlaylistInfo)
    (name : List Char) :
    Except LoadError (List PlaylistInfo × List (List Char)) :=
  match loadLoop lines ⟨name, -1⟩ with
  | .ok (pm, rest) => .ok (pv_UpdateOrInsert pv pm, rest)
  | .error e => .error e

/-- Modelled from the spec (§6): the database loader dispatches on the marker
line, passing the remainder of that line as the playlist name. -/
def loadPlaylistSection (lines : List (List Char)) (pv : List PlaylistInfo) :
    Except LoadError (List PlaylistInfo × List (List Char)) :=
  match lines with
  | [] => .error (.malformedPersistedRecord [])
  | first :: rest =>
    if first.take PLAYLIST_META_BEGIN.length = PLAYLIST_META_BEGIN then
      playlist_metadata_load rest pv (first.drop PLAYLIST_META_BEGIN.length)
    else .error (.malformedPersistedRecord first)

/-! ## Concrete catalogs used by counterexamples and witnesses -/

/-- A song `rock/a.mp3` with one artist tag and a known duration. -/
def songA : Song :=
  ⟨"rock/a.mp3".toList, some ⟨[⟨0, "AC/DC".toList⟩], 180⟩⟩

/-- A song `rock/b.mp3` with no tag record. -/
def songB : Song := ⟨"rock/b.mp3".toList, none⟩

/-- A directory `rock` holding the two songs. -/
def rockDir : Directory := .mk (some ("rock".toList)) [] [songA, songB]

/-- A catalog whose implicit root holds the single directory `rock`. -/
def exampleDb : Directory := .mk none [rockDir] []

instance {ε α : Type} [DecidableEq ε] [DecidableEq α] : DecidableEq (Except ε α) :=
  fun a b =>
    match a, b with
    | .ok x, .ok y =>
      if h : x = y then .isTrue (by rw [h]) else .isFalse (by simp [h])
    | .error x, .error y =>
      if h : x = y then .isTrue (by rw [h]) else .isFalse (by simp [h])
    | .ok _, .error _ => .isFalse (by simp)
    | .error _, .ok _ => .isFalse (by simp)

/-! ## Helper lemmas -/

/-- Freeing, one by one, every allocation of a list empties it (the `fail`
unwind loop of the builder). -/
theorem foldl_erase_self :
    ∀ (l : List (List Char)), l.foldl (fun h n => h.erase n) l = []
  | [] => rfl
  | x :: t => by
    have ih := foldl_erase_self t
    simpa [List.foldl_cons, List.erase_cons_head] using ih

theorem pairList_length :
    ∀ (args : List (List Char)), args.length % 2 = 0 →
      (pairList args).length = args.length / 2
  | [] => by simp [pairList]
  | [a] => by intro h; simp at h
  | a :: b :: rest => by
    intro h
    have hr : rest.length % 2 = 0 := by simp [List.length_cons] at h; omega
    have ih := pairList_length rest hr
    simp only [pairList, List.length_cons]
    omega

/-- Running the construction loop over pairs whose keys all resolve appends
one item per pair, each owning its needle copy. -/
theorem buildLoop_ok :
    ∀ (pairs : List (List Char × List Char)) (acc : List LocateTagItem),
      (∀ pr ∈ pairs, 0 ≤ getLocateTagItemType pr.1) →
      buildLoop pairs acc =
        (.ok (acc ++ pairs.map fun pr => ⟨getLocateTagItemType pr.1, pr.2⟩),
         ((acc ++ pairs.map fun pr =>
            (⟨getLocateTagItemType pr.1, pr.2⟩ : LocateTagItem)).map (·.needle)))
  | [], acc => by intro _; simp [buildLoop]
  | (k, v) :: rest, acc => by
    intro h
    have hk : 0 ≤ getLocateTagItemType k := h (k, v) (by simp)
    have ih := buildLoop_ok rest (acc ++ [⟨getLocateTagItemType k, v⟩])
      (fun pr hpr => h pr (by simp [hpr]))
    simp only [buildLoop]
    rw [if_neg (by omega)]
    rw [ih]
    simp

/-- If some key in the remaining pairs fails to resolve, the loop returns the
error path with every allocation released. -/
theorem buildLoop_fail :
    ∀ (pairs : List (List Char × List Char)) (acc : List LocateTagItem),
      (∃ pr ∈ pairs, getLocateTagItemType pr.1 < 0) →
      ∃ k, buildLoop pairs acc = (.error k, []) ∧ getLocateTagItemType k < 0
  | [], acc => by rintro ⟨pr, hpr, _⟩; simp at hpr
  | (k, v) :: rest, acc => by
    rintro ⟨pr, hpr, hneg⟩
    by_cases hk : getLocateTagItemType k < 0
    · refine ⟨k, ?_, hk⟩
      simp only [buildLoop, if_pos hk]
      rw [foldl_erase_self]
    · have hrest : ∃ pr ∈ rest, getLocateTagItemType pr.1 < 0 := by
        rcases List.mem_cons.mp hpr with h1 | h2
        · exact absurd (h1 ▸ hneg) (by simpa using hk)
        · exact ⟨pr, h2, hneg⟩
      obtain ⟨k2, hk2, hneg2⟩ :=
        buildLoop_fail rest (acc ++ [⟨getLocateTagItemType k, v⟩]) hrest
      refine ⟨k2, ?_, hneg2⟩
      simp only [buildLoop, if_neg hk]
      exact hk2

/-! ## Claim C4 -/

/-- C4: for every even-length token sequence in which some key fails
tag-type resolution, construction fails with `UnknownTagType`, every needle
duplicated for earlier pairs is released (no live allocation remains), and no
partially-built criterion set is returned. -/
theorem c4_construction_failure_releases_all (args : List (List Char))
    (heven : args.length % 2 = 0)
    (hbad : ∃ pr ∈ pairList args, getLocateTagItemType pr.1 < 0) :
    (newLocateTagItemArrayFromArgArray args).2 = [] ∧
      ∃ k, (newLocateTagItemArrayFromArgArray args).1 = .error (.unknownTagType k) ∧
        getLocateTagItemType k < 0 := by
  by_cases h0 : args.length = 0
  · rw [List.length_eq_zero] at h0
    subst h0
    simp [pairList] at hbad
  · obtain ⟨k, hk, hneg⟩ := buildLoop_fail (pairList args) [] hbad
    simp only [newLocateTagItemArrayFromArgArray, if_neg h0]
    rw [if_neg (by omega)]
    rw [hk]
    exact ⟨rfl, k, rfl, hneg⟩

theorem c4_witness :
    (newLocateTagItemArrayFromArgArray
        ["artist".toList, "X".toList, "badkey".toList, "Y".toList]).2 = [] ∧
      ∃ k, (newLocateTagItemArrayFromArgArray
        ["artist".toList, "X".toList, "badkey".toList, "Y".toList]).1 =
          .error (.unknownTagType k) ∧ getLocateTagItemType k < 0 :=
  c4_construction_failure_releases_all
    ["artist".toList, "X".toList, "badkey".toList, "Y".toList]
    (by decide) (by decide)

/-! ## Claim C5 -/

/-- C5: an even-length sequence whose keys all resolve builds a set with
exactly one criterion per pair, each carrying its own needle copy (the live
allocations are exactly the set's needles); the empty sequence yields an
empty valid set; an odd-length sequence fails with `OddArgumentCount` with
nothing allocated. -/
theorem c5_build_success_and_odd_failure (args : List (List Char)) :
    (args.length % 2 = 0 →
      (∀ pr ∈ pairList args, 0 ≤ getLocateTagItemType pr.1) →
      newLocateTagItemArrayFromArgArray args =
        (.ok ((pairList args).map fun pr => ⟨getLocateTagItemType pr.1, pr.2⟩),
         (pairList args).map (·.2)) ∧
      ((pairList args).map fun pr =>
        (⟨getLocateTagItemType pr.1, pr.2⟩ : LocateTagItem)).length = args.length / 2) ∧
    (args.length % 2 = 1 →
      newLocateTagItemArrayFromArgArray args = (.error .oddArgumentCount, [])) := by
  constructor
  · intro heven hres
    constructor
    · by_cases h0 : args.length = 0
      · rw [List.length_eq_zero] at h0
        subst h0
        simp [newLocateTagItemArrayFromArgArray, pairList]
      · simp only [newLocateTagItemArrayFromArgArray, if_neg h0]
        rw [if_neg (by omega)]
        rw [buildLoop_ok (pairList args) [] hres]
        simp [List.map_map, Function.comp]
    · rw [List.length_map]
      exact pairList_length args heven
  · intro hodd
    have h0 : ¬ args.length = 0 := by omega
    simp only [newLocateTagItemArrayFromArgArray, if_neg h0]
    rw [if_pos (by omega)]

theorem c5_witness :
    newLocateTagItemArrayFromArgArray
        ["artist".toList, "X".toList, "album".toList, "Y".toList] =
      (.ok [⟨0, "X".toList⟩, ⟨1, "Y".toList⟩], ["X".toList, "Y".toList]) ∧
    newLocateTagItemArrayFromArgArray ["artist".toList] =
      (.error .oddArgumentCount, []) := by
  constructor
  · have h := (c5_build_success_and_odd_failure
      ["artist".toList, "X".toList, "album".toList, "Y".toList]).1
      (by decide) (by decide)
    exact h.1.trans (by decide)
  · exact (c5_build_success_and_odd_failure ["artist".toList]).2 (by decide)

/-! ## Matcher lemmas -/

theorem startsWithStr_self : ∀ (l : List Char), startsWithStr l l = true
  | [] => rfl
  | c :: cs => by simp [startsWithStr, startsWithStr_self cs]

theorem strstr_self (l : List Char) : strstr l l = true := by
  rw [strstr.eq_def]
  simp [startsWithStr_self]

/-- An exact tag-item hit yields a substring hit on the upper-cased data. -/
theorem scan_exact_implies_sub (s : Song) (ty : Int) (n : List Char) :
    exactTagScan s ty n = true → subTagScan s ty (strDupToUpper n) = true := by
  simp only [exactTagScan, subTagScan, List.any_eq_true, Bool.and_eq_true]
  rintro ⟨it, hmem, hty, hval⟩
  refine ⟨it, hmem, hty, ?_⟩
  have hv : it.value = n := by simpa using hval
  rw [hv]
  exact strstr_self _

/-- A song passing one criterion under the exact matcher passes it under the
substring matcher run on the upper-cased needle. -/
theorem exact_implies_sub (s : Song) (ty : Int) (n : List Char) :
    tagItemFoundAndMatches s ty n = true →
      strstrSearchTag s ty (strDupToUpper n) = true := by
  intro h
  by_cases hFA : ty = LOCATE_TAG_FILE_TYPE ∨ ty = LOCATE_TAG_ANY_TYPE
  · rw [tagItemFoundAndMatches, if_pos hFA] at h
    rw [strstrSearchTag, if_pos hFA]
    by_cases hurl : n = getSongUrl s
    · have hss : strstr (strDupToUpper (getSongUrl s)) (strDupToUpper n) = true := by
        rw [hurl]
        exact strstr_self _
      simp [hss]
    · rw [if_neg hurl] at h
      by_cases hF : ty = LOCATE_TAG_FILE_TYPE
      · rw [if_pos hF] at h
        exact absurd h (by simp)
      · rw [if_neg hF] at h
        by_cases hs : strstr (strDupToUpper (getSongUrl s)) (strDupToUpper n) = true
        · simp [hs]
        · rw [Bool.not_eq_true] at hs
          simp only [hs, Bool.false_eq_true, if_false, if_neg hF]
          exact scan_exact_implies_sub s ty n h
  · rw [tagItemFoundAndMatches, if_neg hFA] at h
    rw [strstrSearchTag, if_neg hFA]
    exact scan_exact_implies_sub s ty n h

/-- A song matching every criterion exactly matches every criterion under the
substring discipline after `searchForSongsIn` upper-cases the needles. -/
theorem condsMatch_implies_subCondsMatch (items : List LocateTagItem) (s : Song) :
    condsMatch items s = true → subCondsMatch (upperizeItems items) s = true := by
  simp only [condsMatch, subCondsMatch, upperizeItems, List.all_map, List.all_eq_true]
  intro h it hmem
  exact exact_implies_sub s it.tagType it.needle (h it hmem)

/-! ## Traversal fold lemmas -/

/-- When the per-directory visitor leaves the state unchanged, a traversal
fold is a fold over the visited songs. -/
theorem foldl_visitStep_songs {σ : Type} :
    ∀ (es : List VisitEvent) (f : σ → Song → σ) (s : σ),
      es.foldl (visitStep f fun x _ => x) s = (songsOfEvents es).foldl f s
  | [], _, _ => rfl
  | .song sg :: es, f, s => by
    simp [List.foldl_cons, visitStep, songsOfEvents, List.filterMap_cons,
      foldl_visitStep_songs es f (f s sg)]
  | .dir d :: es, f, s => by
    simp [List.foldl_cons, visitStep, songsOfEvents, List.filterMap_cons,
      foldl_visitStep_songs es f s]

/-- The emit-if-matching song visitor appends exactly the URLs of matching
songs, in visit order. -/
theorem foldl_emit_filter :
    ∀ (songs : List Song) (p : Song → Bool) (out : List (List Char)),
      songs.foldl (fun o s => if p s then o ++ [getSongUrl s] else o) out =
        out ++ (songs.filter p).map getSongUrl
  | [], _, _ => by simp
  | s :: songs, p, out => by
    by_cases hp : p s
    · simp [List.foldl_cons, hp, foldl_emit_filter songs p (out ++ [getSongUrl s])]
    · simp [List.foldl_cons, hp, foldl_emit_filter songs p out, List.filter_cons]

/-- Whole-catalog traversal with the emit-if-matching visitor. -/
theorem traverseAllIn_emit_none (db : Directory) (p : Song → Bool) :
    traverseAllIn db none
        (fun out song => if p song then out ++ [getSongUrl song] else out)
        (fun out _ => out) ([] : List (List Char)) =
      (.ok (), ((allSongsOf db).filter p).map getSongUrl) := by
  simp only [traverseAllIn, walkDir, allSongsOf]
  rw [foldl_visitStep_songs, foldl_emit_filter]
  simp

/-- Named-root traversal with the emit-if-matching visitor, root found. -/
theorem traverseAllIn_emit_some (db : Directory) (q : List Char)
    (d : Directory) (p : Song → Bool) (hf : findDirectory db q = some d) :
    traverseAllIn db (some q)
        (fun out song => if p song then out ++ [getSongUrl song] else out)
        (fun out _ => out) ([] : List (List Char)) =
      (.ok (), ((allSongsOf d).filter p).map getSongUrl) := by
  simp only [traverseAllIn, hf, walkDir, allSongsOf]
  rw [foldl_visitStep_songs, foldl_emit_filter]
  simp

/-- Named-root traversal with the emit-if-matching visitor, root missing. -/
theorem traverseAllIn_emit_notfound (db : Directory) (q : List Char)
    (p : Song → Bool) (hf : findDirectory db q = none) :
    traverseAllIn db (some q)
        (fun out song => if p song then out ++ [getSongUrl song] else out)
        (fun out _ => out) ([] : List (List Char)) =
      (.error .directoryNotFound, []) := by
  simp [traverseAllIn, hf]

/-! ## Claim C6 -/

/-- C6: every song emitted by the exact-match operation (`find`) is also
emitted by the case-insensitive substring operation (`search`) run with the
same criterion set on the same root: `find(C) ⊆ search(C)`. -/
theorem c6_find_subset_search (db : Directory) (name : Option (List Char))
    (items : List LocateTagItem) (u : List Char)
    (hu : u ∈ (findSongsIn db name items).2) :
    u ∈ (searchForSongsIn db name items).1.2 := by
  have hsub : ∀ (songs : List Song),
      u ∈ (songs.filter (condsMatch items)).map getSongUrl →
        u ∈ (songs.filter (subCondsMatch (upperizeItems items))).map getSongUrl := by
    intro songs hmem
    rcases List.mem_map.mp hmem with ⟨s, hs, hurl⟩
    rcases List.mem_filter.mp hs with ⟨hsongs, hmatch⟩
    exact List.mem_map.mpr ⟨s, List.mem_filter.mpr
      ⟨hsongs, condsMatch_implies_subCondsMatch items s hmatch⟩, hurl⟩
  have hgoal : (searchForSongsIn db name items).1 = traverseAllIn db name
      (fun out song =>
        if subCondsMatch (upperizeItems items) song then out ++ [getSongUrl song] else out)
      (fun out _ => out) [] := rfl
  rw [findSongsIn] at hu
  rw [hgoal]
  cases name with
  | none =>
    rw [traverseAllIn_emit_none] at hu
    rw [traverseAllIn_emit_none]
    exact hsub _ hu
  | some q =>
    cases hf : findDirectory db q with
    | none =>
      rw [traverseAllIn_emit_notfound db q _ hf] at hu
      simp at hu
    | some d =>
      rw [traverseAllIn_emit_some db q d _ hf] at hu
      rw [traverseAllIn_emit_some db q d _ hf]
      exact hsub _ hu

theorem c6_witness :
    ("rock/a.mp3".toList ∈
        (findSongsIn exampleDb (some ("rock".toList)) [⟨0, "AC/DC".toList⟩]).2) ∧
      "rock/a.mp3".toList ∈
        (searchForSongsIn exampleDb (some ("rock".toList)) [⟨0, "AC/DC".toList⟩]).1.2 :=
  ⟨by decide,
   c6_find_subset_search exampleDb (some ("rock".toList)) [⟨0, "AC/DC".toList⟩]
     ("rock/a.mp3".toList) (by decide)⟩

/-! ## Claim C7 -/

/-- C7: the exact matcher decides exactly the spec's case analysis — `FILE`
compares the needle against the URL only; `ANY` matches the URL or any tag
item value; a concrete type matches some item of exactly that type; with the
no-tag edge case falling out of the item list being empty. -/
theorem c7_exact_matcher_characterisation (song : Song) (ty : Int)
    (str : List Char) :
    tagItemFoundAndMatches song ty str = true ↔ specExactMatch song ty str := by
  have hFA : LOCATE_TAG_FILE_TYPE ≠ LOCATE_TAG_ANY_TYPE := by decide
  by_cases hF : ty = LOCATE_TAG_FILE_TYPE
  · subst hF
    simp only [tagItemFoundAndMatches, specExactMatch, if_pos (Or.inl rfl), if_pos rfl,
      getSongUrl]
    by_cases hurl : str = song.url
    · simp [hurl]
    · simp [hurl]
  · by_cases hA : ty = LOCATE_TAG_ANY_TYPE
    · subst hA
      simp only [tagItemFoundAndMatches, specExactMatch, if_pos (Or.inr rfl),
        if_neg hF, getSongUrl]
      by_cases hurl : str = song.url
      · simp [hurl]
      · simp only [if_neg hurl, hurl, false_or]
        simp [exactTagScan, List.any_eq_true]
    · simp only [tagItemFoundAndMatches, specExactMatch,
        if_neg (by tauto : ¬ (ty = LOCATE_TAG_FILE_TYPE ∨ ty = LOCATE_TAG_ANY_TYPE)),
        if_neg hF, if_neg hA]
      simp [exactTagScan, List.any_eq_true, hA]

/-! ## Claim C10 -/

/-- Restoring the saved needle pointers undoes the upper-casing, pair by
pair. -/
theorem zip_restore :
    ∀ (items : List LocateTagItem),
      ((items.map fun it =>
          ({ it with needle := strDupToUpper it.needle } : LocateTagItem)).zip
        (items.map (·.needle))).map (fun p => { p.1 with needle := p.2 }) = items
  | [] => rfl
  | it :: rest => by
    simp [zip_restore rest]

/-- C10: `searchForSongsIn` returns the criterion set exactly as the caller
supplied it — the needles are replaced by upper-cased copies only for the
traversal itself and the original pointers are restored before returning,
whether or not the traversal succeeded (the equation holds for every root,
including ones that do not resolve). -/
theorem c10_search_restores_needles (db : Directory) (name : Option (List Char))
    (items : List LocateTagItem) :
    (searchForSongsIn db name items).2 = items ∧
      (searchForSongsIn db name items).1 =
        traverseAllIn db name
          (fun out song =>
            if subCondsMatch (upperizeItems items) song then out ++ [getSongUrl song]
            else out)
          (fun out _ => out) [] := by
  constructor
  · show ((upperizeItems items).zip (items.map (·.needle))).map
        (fun p => { p.1 with needle := p.2 }) = items
    exact zip_restore items
  · rfl

/-! ## Claim C1 -/

/-- C1 counterexample: on a root that does not exist the traversal engine
reports `DirectoryNotFound`, yet `countSongsIn` and `sumSongTimesIn` still
return numeric results (0) to their caller — the lookup failure is not
surfaced by these two operations. -/
theorem c1_counterexample :
    (traverseAllIn exampleDb (some ("nope".toList)) (fun (c : Nat) _ => c)
        (fun c d => c + d.songs.length) 0).1 = .error .directoryNotFound ∧
      countSongsIn exampleDb (some ("nope".toList)) = 0 ∧
      sumSongTimesIn exampleDb (some ("nope".toList)) = 0 := by
  decide

/-- C1 amended: a `DirectoryNotFound` from the traversal engine is surfaced
unmodified by `findSongsIn` and `searchForSongsIn`, but `countSongsIn` and
`sumSongTimesIn` ignore the traversal's return value and return their (still
zero) accumulator as an ordinary result. -/
theorem c1_amended_error_surfacing (db : Directory) (p : List Char)
    (items : List LocateTagItem) (h : findDirectory db p = none) :
    (findSongsIn db (some p) items).1 = .error .directoryNotFound ∧
      (searchForSongsIn db (some p) items).1.1 = .error .directoryNotFound ∧
      countSongsIn db (some p) = 0 ∧
      sumSongTimesIn db (some p) = 0 := by
  refine ⟨?_, ?_, ?_, ?_⟩
  · rw [findSongsIn, traverseAllIn_emit_notfound db p _ h]
  · have hgoal : (searchForSongsIn db (some p) items).1 = traverseAllIn db (some p)
        (fun out song =>
          if subCondsMatch (upperizeItems items) song then out ++ [getSongUrl song]
          else out)
        (fun out _ => out) [] := rfl
    rw [hgoal, traverseAllIn_emit_notfound db p _ h]
  · simp [countSongsIn, traverseAllIn, h]
  · simp [sumSongTimesIn, traverseAllIn, h]

theorem c1_amended_witness :
    (findSongsIn exampleDb (some ("nope".toList)) []).1 =
        .error .directoryNotFound ∧
      (searchForSongsIn exampleDb (some ("nope".toList)) []).1.1 =
        .error .directoryNotFound ∧
      countSongsIn exampleDb (some ("nope".toList)) = 0 ∧
      sumSongTimesIn exampleDb (some ("nope".toList)) = 0 :=
  c1_amended_error_surfacing exampleDb ("nope".toList) [] (by rfl)

/-! ## Collector lemmas -/

/-- Membership in the drained projection mirrors membership of the pair in
the collector. -/
theorem mem_printVisited :
    ∀ (tr : Tracker) (ty : Int) (v : List Char),
      (ty, v) ∈ tr ↔ v ∈ printVisitedInTagTracker ty tr
  | [], _, _ => by simp [printVisitedInTagTracker]
  | (a, w) :: tr, ty, v => by
    by_cases ha : a = ty
    · subst ha
      simp [printVisitedInTagTracker, List.filter_cons, Prod.ext_iff,
        ← mem_printVisited tr a v, eq_comm]
    · have hstep : printVisitedInTagTracker ty ((a, w) :: tr) =
          printVisitedInTagTracker ty tr := by
        simp only [printVisitedInTagTracker, List.filter_cons]
        rw [if_neg (by simpa using ha)]
      rw [hstep, ← mem_printVisited tr ty v]
      simp only [List.mem_cons, Prod.ext_iff]
      constructor
      · rintro (⟨h1, _⟩ | h2)
        · exact absurd h1.symm ha
        · exact h2
      · exact Or.inr

/-- Visiting a value acts as first-seen insertion on the drained
projection. -/
theorem printVisited_visit (tr : Tracker) (ty : Int) (v : List Char) :
    printVisitedInTagTracker ty (visitInTagTracker ty v tr) =
      insertNew (printVisitedInTagTracker ty tr) v := by
  by_cases hmem : (ty, v) ∈ tr
  · rw [visitInTagTracker, if_pos hmem, insertNew,
      if_pos ((mem_printVisited tr ty v).mp hmem)]
  · rw [visitInTagTracker, if_neg hmem, insertNew,
      if_neg (fun hv => hmem ((mem_printVisited tr ty v).mpr hv))]
    simp [printVisitedInTagTracker, List.filter_append, List.map_append]

/-- Recording one song's items inserts, first-seen, exactly its values of the
requested type. -/
theorem printVisited_fold_items :
    ∀ (its : List TagItem) (ty : Int) (tr : Tracker),
      printVisitedInTagTracker ty
          (its.foldl (fun t it => if it.type = ty then visitInTagTracker ty it.value t else t) tr) =
        (its.filterMap fun it => if it.type = ty then some it.value else none).foldl
          insertNew (printVisitedInTagTracker ty tr)
  | [], _, _ => rfl
  | it :: its, ty, tr => by
    by_cases hty : it.type = ty
    · simp only [List.foldl_cons, List.filterMap_cons, if_pos hty,
        printVisited_fold_items its ty _, printVisited_visit]
    · simp only [List.foldl_cons, List.filterMap_cons, if_neg hty,
        printVisited_fold_items its ty tr]

theorem printVisited_recordSong (s : Song) (ty : Int) (tr : Tracker) :
    printVisitedInTagTracker ty (recordSong ty tr s) =
      (valuesOfType ty s).foldl insertNew (printVisitedInTagTracker ty tr) :=
  printVisited_fold_items (songTagItems s) ty tr

/-- Recording a song stream inserts, first-seen, the concatenation of the
songs' values of the requested type. -/
theorem printVisited_fold_songs :
    ∀ (songs : List Song) (ty : Int) (tr : Tracker),
      printVisitedInTagTracker ty (songs.foldl (recordSong ty) tr) =
        (songs.flatMap (valuesOfType ty)).foldl insertNew
          (printVisitedInTagTracker ty tr)
  | [], _, _ => rfl
  | s :: songs, ty, tr => by
    rw [List.foldl_cons, printVisited_fold_songs songs ty (recordSong ty tr s),
      printVisited_recordSong, List.flatMap_cons, List.foldl_append]

/-- First-seen insertion never introduces a duplicate. -/
theorem foldl_insertNew_nodup :
    ∀ (vs : List (List Char)) (st : List (List Char)),
      st.Nodup → (vs.foldl insertNew st).Nodup
  | [], _, h => h
  | v :: vs, st, h => by
    rw [List.foldl_cons]
    refine foldl_insertNew_nodup vs _ ?_
    rw [insertNew]
    by_cases hv : v ∈ st
    · rwa [if_pos hv]
    · rw [if_neg hv]
      simp [List.nodup_append, h, hv]

/-- Resetting a type leaves nothing of that type to drain. -/
theorem printVisited_reset (ty : Int) (tr : Tracker) :
    printVisitedInTagTracker ty (resetVisitedFlagsInTagTracker ty tr) = [] := by
  rw [printVisitedInTagTracker, resetVisitedFlagsInTagTracker, List.filter_filter]
  have hfalse : ∀ p ∈ tr, ¬ (decide (p.1 = ty) && decide (p.1 ≠ ty)) = true := by
    intro p _
    simp
  rw [List.filter_eq_nil_iff.mpr hfalse]
  rfl

/-- With a non-`FILE` tag type, the enumerate visitor never prints and its
collector evolves by recording exactly the criteria-matching songs. -/
theorem fold_listUnique (conds : List LocateTagItem) (tagType : Int)
    (h : tagType ≠ LOCATE_TAG_FILE_TYPE) :
    ∀ (songs : List Song) (st : ListState),
      (songs.foldl (listUniqueTagsInDirectory conds tagType) st).out = st.out ∧
        (songs.foldl (listUniqueTagsInDirectory conds tagType) st).tracker =
          (songs.filter (condsMatch conds)).foldl (recordSong tagType) st.tracker
  | [], st => ⟨rfl, rfl⟩
  | s :: songs, st => by
    by_cases hm : condsMatch conds s = true
    · have ih := fold_listUnique conds tagType h songs
        { st with tracker := recordSong tagType st.tracker s }
      rw [List.foldl_cons, listUniqueTagsInDirectory, if_pos hm, visitTag, if_neg h,
        List.filter_cons, if_pos hm, List.foldl_cons]
      exact ⟨ih.1, ih.2⟩
    · have ih := fold_listUnique conds tagType h songs st
      rw [List.foldl_cons, listUniqueTagsInDirectory, if_neg hm, List.filter_cons,
        if_neg hm]
      exact ⟨ih.1, ih.2⟩

/-- One visit keeps every pair already in the collector. -/
theorem mem_visitInTagTracker (p : Int × List Char) (ty : Int) (v : List Char)
    (tr : Tracker) (h : p ∈ tr) : p ∈ visitInTagTracker ty v tr := by
  rw [visitInTagTracker]
  by_cases hmem : (ty, v) ∈ tr
  · rwa [if_pos hmem]
  · rw [if_neg hmem]
    exact List.mem_append_left _ h

theorem mem_recordSong (p : Int × List Char) (ty : Int) (s : Song) :
    ∀ (tr : Tracker), p ∈ tr → p ∈ recordSong ty tr s := by
  have hfold : ∀ (its : List TagItem) (tr : Tracker), p ∈ tr →
      p ∈ its.foldl
        (fun t it => if it.type = ty then visitInTagTracker ty it.value t else t) tr := by
    intro its
    induction its with
    | nil => intro tr h; exact h
    | cons it its ih =>
      intro tr h
      rw [List.foldl_cons]
      by_cases hty : it.type = ty
      · rw [if_pos hty]
        exact ih _ (mem_visitInTagTracker p ty it.value tr h)
      · rw [if_neg hty]
        exact ih _ h
  intro tr h
  exact hfold (songTagItems s) tr h

/-- The enumerate visitor only ever adds to the collector. -/
theorem fold_listUnique_mem (conds : List LocateTagItem) (tagType : Int)
    (p : Int × List Char) :
    ∀ (songs : List Song) (st : ListState), p ∈ st.tracker →
      p ∈ (songs.foldl (listUniqueTagsInDirectory conds tagType) st).tracker
  | [], _, h => h
  | s :: songs, st, h => by
    rw [List.foldl_cons]
    refine fold_listUnique_mem conds tagType p songs _ ?_
    rw [listUniqueTagsInDirectory]
    by_cases hm : condsMatch conds s = true
    · rw [if_pos hm, visitTag]
      by_cases hF : tagType = LOCATE_TAG_FILE_TYPE
      · rwa [if_pos hF]
      · rw [if_neg hF]
        exact mem_recordSong p tagType s st.tracker h
    · rwa [if_neg hm]

/-- `mpd_sint8` truncation is the identity on the byte range. -/
theorem toSint8_small (x : Int) (h0 : 0 ≤ x) (h1 : x ≤ 127) : toSint8 x = x := by
  rw [toSint8, Int.emod_eq_of_lt (by omega) (by omega)]
  omega

/-! ## Claim C3 -/

/-- C3 counterexample: with the `FILE` pseudo-type the URL of a matching song
is not recorded into the distinct-value collector at all — the collector ends
empty while the URLs were printed directly during the traversal (two lines,
one per matching song, with no drain phase). -/
theorem c3_counterexample :
    condsMatch [] songA = true ∧
      (listAllUniqueTags exampleDb LOCATE_TAG_FILE_TYPE [] []).2.1 = [] ∧
      (listAllUniqueTags exampleDb LOCATE_TAG_FILE_TYPE [] []).2.2 =
        ["rock/a.mp3".toList, "rock/b.mp3".toList] := by
  decide

/-- C3 amended: for a concrete valid tag type (`0 ≤ ty <
TAG_NUM_OF_ITEM_TYPES`), every Tag Item value of that type carried by a
criteria-matching song is recorded into the collector and the output is the
drain of the collector in first-seen order with no duplicates (songs lacking
the type contribute nothing); the `FILE` pseudo-type instead prints URLs
directly during traversal, bypassing the collector. -/
theorem c3_amended_enumerate (db : Directory) (conds : List LocateTagItem)
    (ty : Int) (tr0 : Tracker) (h0 : 0 ≤ ty) (h1 : ty < TAG_NUM_OF_ITEM_TYPES) :
    (listAllUniqueTags db ty conds tr0).2.2 =
        firstSeenDedup (matchedTagValues db ty conds) ∧
      ((listAllUniqueTags db ty conds tr0).2.2).Nodup := by
  have hNum : TAG_NUM_OF_ITEM_TYPES = 11 := by decide
  have hty8 : toSint8 ty = ty := toSint8_small ty h0 (by omega)
  have hFileEq : LOCATE_TAG_FILE_TYPE = TAG_NUM_OF_ITEM_TYPES + 10 := rfl
  have hFile : toSint8 ty ≠ LOCATE_TAG_FILE_TYPE := by
    rw [hty8]
    omega
  have hguard : 0 ≤ ty ∧ ty ≤ TAG_NUM_OF_ITEM_TYPES := ⟨h0, by omega⟩
  have hfold := fold_listUnique conds (toSint8 ty) hFile (allSongsOf db)
    ⟨resetVisitedFlagsInTagTracker ty tr0, []⟩
  have hout : (listAllUniqueTags db ty conds tr0).2.2 =
      ((allSongsOf db).foldl (listUniqueTagsInDirectory conds (toSint8 ty))
          ⟨resetVisitedFlagsInTagTracker ty tr0, []⟩).out ++
        printVisitedInTagTracker ty
          ((allSongsOf db).foldl (listUniqueTagsInDirectory conds (toSint8 ty))
            ⟨resetVisitedFlagsInTagTracker ty tr0, []⟩).tracker := by
    simp only [listAllUniqueTags, if_pos hguard, traverseAllIn, walkDir,
      foldl_visitStep_songs]
    rfl
  rw [hout, hfold.1, hfold.2, hty8]
  rw [printVisited_fold_songs, printVisited_reset]
  constructor
  · simp [firstSeenDedup, matchedTagValues]
  · simp only [List.nil_append]
    refine foldl_insertNew_nodup _ [] List.nodup_nil

theorem c3_amended_witness :
    (listAllUniqueTags exampleDb 0 [] []).2.2 =
        firstSeenDedup (matchedTagValues exampleDb 0 []) ∧
      ((listAllUniqueTags exampleDb 0 [] []).2.2).Nodup :=
  c3_amended_enumerate exampleDb [] 0 [] (by decide) (by decide)

/-! ## Claim C9 -/

/-- C9 counterexample: `TAG_NUM_OF_ITEM_TYPES` (= 11) is not a valid tag-type
code — the resolver yields only 0..10 for concrete types and the distinct
codes 21/31 for the pseudo-types — yet the inclusive bound
`type <= TAG_NUM_OF_ITEM_TYPES` makes the call reset the collector: a stale
entry of that type is cleared rather than left untouched. -/
theorem c9_counterexample :
    TAG_NUM_OF_ITEM_TYPES ≠ LOCATE_TAG_FILE_TYPE ∧
      TAG_NUM_OF_ITEM_TYPES ≠ LOCATE_TAG_ANY_TYPE ∧
      (listAllUniqueTags exampleDb TAG_NUM_OF_ITEM_TYPES []
          [(TAG_NUM_OF_ITEM_TYPES, "stale".toList)]).2.1 = [] := by
  decide

/-- C9 amended: for a requested code strictly outside `[0,
TAG_NUM_OF_ITEM_TYPES]` (in particular the `ANY` and `FILE` pseudo-type codes
and negatives) the collector is neither reset — every pre-existing entry
survives — nor drained, so a non-`FILE` request produces no output at all;
the boundary code `TAG_NUM_OF_ITEM_TYPES` itself, although not a valid tag
type, does reset and drain. -/
theorem c9_amended_out_of_range (db : Directory) (conds : List LocateTagItem)
    (tr0 : Tracker) (ty : Int)
    (hty : ty < 0 ∨ TAG_NUM_OF_ITEM_TYPES < ty) :
    (∀ p ∈ tr0, p ∈ (listAllUniqueTags db ty conds tr0).2.1) ∧
      (toSint8 ty ≠ LOCATE_TAG_FILE_TYPE →
        (listAllUniqueTags db ty conds tr0).2.2 = []) := by
  have hguard : ¬ (0 ≤ ty ∧ ty ≤ TAG_NUM_OF_ITEM_TYPES) := by omega
  have htr : (listAllUniqueTags db ty conds tr0).2.1 =
      ((allSongsOf db).foldl (listUniqueTagsInDirectory conds (toSint8 ty))
        ⟨tr0, []⟩).tracker := by
    simp only [listAllUniqueTags, if_neg hguard, traverseAllIn, walkDir,
      foldl_visitStep_songs]
    rfl
  have hout : (listAllUniqueTags db ty conds tr0).2.2 =
      ((allSongsOf db).foldl (listUniqueTagsInDirectory conds (toSint8 ty))
        ⟨tr0, []⟩).out := by
    simp only [listAllUniqueTags, if_neg hguard, traverseAllIn, walkDir,
      foldl_visitStep_songs]
    rfl
  constructor
  · intro p hp
    rw [htr]
    exact fold_listUnique_mem conds (toSint8 ty) p (allSongsOf db) ⟨tr0, []⟩ hp
  · intro hFile
    rw [hout]
    exact (fold_listUnique conds (toSint8 ty) hFile (allSongsOf db) ⟨tr0, []⟩).1

theorem c9_amended_witness :
    (((0 : Int), "x".toList) ∈
        (listAllUniqueTags exampleDb LOCATE_TAG_ANY_TYPE []
          [((0 : Int), "x".toList)]).2.1) ∧
      (listAllUniqueTags exampleDb LOCATE_TAG_ANY_TYPE []
          [((0 : Int), "x".toList)]).2.2 = [] := by
  have h := c9_amended_out_of_range exampleDb [] [((0 : Int), "x".toList)]
    LOCATE_TAG_ANY_TYPE (by decide)
  exact ⟨h.1 _ (by decide), h.2 (by decide)⟩

/-! ## Decimal printing / parsing lemmas -/

theorem digitChar_toNat : ∀ d : Nat, d < 10 → (Nat.digitChar d).toNat = 48 + d := by
  decide

theorem natDigitsAux_congr :
    ∀ (f1 n f2 : Nat), n < f1 → n < f2 → natDigitsAux f1 n = natDigitsAux f2 n := by
  intro f1
  induction f1 with
  | zero => intro n f2 h1 _; omega
  | succ g ih =>
    intro n f2 h1 h2
    cases f2 with
    | zero => omega
    | succ h =>
      simp only [natDigitsAux]
      by_cases hn : n < 10
      · rw [if_pos hn, if_pos hn]
      · rw [if_neg hn, if_neg hn]
        have hlt : n / 10 < n := Nat.div_lt_self (by omega) (by omega)
        rw [ih (n / 10) h (by omega) (by omega)]

theorem natDigits_eq (n : Nat) :
    natDigits n = if n < 10 then [Nat.digitChar n]
      else natDigits (n / 10) ++ [Nat.digitChar (n % 10)] := by
  rw [natDigits]
  conv_lhs => rw [natDigitsAux]
  by_cases hn : n < 10
  · rw [if_pos hn, if_pos hn]
  · rw [if_neg hn, if_neg hn]
    have hlt : n / 10 < n := Nat.div_lt_self (by omega) (by omega)
    rw [natDigitsAux_congr n (n / 10) (n / 10 + 1) (by omega) (by omega)]
    rfl

theorem natDigits_are_digits (n : Nat) :
    ∀ c ∈ natDigits n, 48 ≤ c.toNat ∧ c.toNat ≤ 57 := by
  induction n using Nat.strong_induction_on with
  | _ n ih =>
    rw [natDigits_eq]
    by_cases hn : n < 10
    · rw [if_pos hn]
      intro c hc
      have hc1 : c = Nat.digitChar n := by simpa using hc
      subst hc1
      rw [digitChar_toNat n hn]
      omega
    · rw [if_neg hn]
      intro c hc
      rcases List.mem_append.mp hc with h1 | h2
      · exact ih (n / 10) (Nat.div_lt_self (by omega) (by omega)) c h1
      · have hc1 : c = Nat.digitChar (n % 10) := by simpa using h2
        subst hc1
        rw [digitChar_toNat (n % 10) (Nat.mod_lt _ (by omega))]
        omega

theorem natDigits_ne_nil (n : Nat) : natDigits n ≠ [] := by
  rw [natDigits_eq]
  by_cases hn : n < 10
  · simp [hn]
  · simp [hn]

theorem parseDigits_append (l1 l2 : List Char) :
    ∀ (acc : Nat), (∀ c ∈ l1, 48 ≤ c.toNat ∧ c.toNat ≤ 57) →
      parseDigits (l1 ++ l2) acc = parseDigits l2 (parseDigits l1 acc) := by
  induction l1 with
  | nil => intro acc _; rfl
  | cons c l1 ih =>
    intro acc h
    have hc := h c (by simp)
    simp only [List.cons_append, parseDigits, if_pos hc]
    exact ih _ (fun d hd => h d (by simp [hd]))

theorem parseDigits_natDigits (n : Nat) :
    ∀ (acc : Nat), parseDigits (natDigits n) acc =
      acc * 10 ^ (natDigits n).length + n := by
  induction n using Nat.strong_induction_on with
  | _ n ih =>
    intro acc
    rw [natDigits_eq]
    by_cases hn : n < 10
    · rw [if_pos hn]
      have hd : 48 ≤ (Nat.digitChar n).toNat ∧ (Nat.digitChar n).toNat ≤ 57 := by
        rw [digitChar_toNat n hn]
        omega
      simp only [parseDigits, if_pos hd, List.length_cons, List.length_nil]
      rw [digitChar_toNat n hn]
      simp [Nat.pow_succ]
    · rw [if_neg hn]
      have hlt : n / 10 < n := Nat.div_lt_self (by omega) (by omega)
      rw [parseDigits_append _ _ acc (natDigits_are_digits (n / 10))]
      rw [ih (n / 10) hlt acc]
      have hd : 48 ≤ (Nat.digitChar (n % 10)).toNat ∧
          (Nat.digitChar (n % 10)).toNat ≤ 57 := by
        rw [digitChar_toNat (n % 10) (Nat.mod_lt _ (by omega))]
        omega
      simp only [parseDigits, if_pos hd]
      rw [digitChar_toNat (n % 10) (Nat.mod_lt _ (by omega))]
      simp only [List.length_append, List.length_cons, List.length_nil,
        Nat.pow_succ]
      have key : ∀ A : Nat,
          (A + n / 10) * 10 + (48 + n % 10 - 48) = A * 10 + n := by
        intro A
        omega
      rw [key (acc * 10 ^ (natDigits (n / 10)).length)]
      ring

/-- The decimal text of a natural number parses back to it. -/
theorem strtol_natDigits (n : Nat) : strtol (natDigits n) = (n : Int) := by
  obtain ⟨c, t, hct⟩ : ∃ c t, natDigits n = c :: t := by
    cases h : natDigits n with
    | nil => exact absurd h (natDigits_ne_nil n)
    | cons c t => exact ⟨c, t, rfl⟩
  have hc : 48 ≤ c.toNat ∧ c.toNat ≤ 57 :=
    natDigits_are_digits n c (by rw [hct]; simp)
  have hspace : isSpaceChar c = false := by
    rw [isSpaceChar, decide_eq_false_iff_not]
    rintro (rfl | rfl | rfl | rfl | rfl | rfl) <;> revert hc <;> decide
  have hminus : ¬ c = '-' := by
    rintro rfl
    revert hc
    decide
  have hplus : ¬ c = '+' := by
    rintro rfl
    revert hc
    decide
  have hparse : parseDigits (natDigits n) 0 = n := by
    rw [parseDigits_natDigits n 0]
    simp
  rw [strtol.eq_def, hct]
  simp only [skipSpaces, hspace, Bool.false_eq_true, if_false, if_neg hminus,
    if_neg hplus]
  rw [← hct, hparse]

/-- `StripLeft` recovers the digit text of the saved `mtime` value. -/
theorem stripLeft_space_digits (n : Nat) :
    stripLeft (' ' :: natDigits n) = natDigits n := by
  rw [stripLeft, if_pos (by decide)]
  obtain ⟨c, t, hct⟩ : ∃ c t, natDigits n = c :: t := by
    cases h : natDigits n with
    | nil => exact absurd h (natDigits_ne_nil n)
    | cons c t => exact ⟨c, t, rfl⟩
  have hc : 48 ≤ c.toNat ∧ c.toNat ≤ 57 :=
    natDigits_are_digits n c (by rw [hct]; simp)
  rw [hct, stripLeft, if_neg (by omega)]

/-! ## Claim C2 -/

/-- C2 counterexample: the section line `bogus: 1` is rejected, but the error
names only `bogus` — the part of the line before its first colon — not the
offending raw line `bogus: 1` verbatim. -/
theorem c2_counterexample :
    playlist_metadata_load ["bogus: 1".toList, "playlist_end".toList] []
        ("x".toList) =
      .error (.malformedPersistedRecord ("bogus".toList)) ∧
      "bogus".toList ≠ "bogus: 1".toList := by
  decide

/-- C2 amended: every non-`mtime` line inside a section before the terminator
is a fatal `MalformedPersistedRecord`; the error names the line verbatim only
when it contains no colon or starts with one — when a colon is present later
in the line, the error names the prefix of the line before its first colon
(the in-place NUL truncation of `*colon++ = 0`). -/
theorem c2_amended_malformed_line (line : List Char) (rest : List (List Char))
    (pv : List PlaylistInfo) (nm : List Char)
    (hend : line ≠ "playlist_end".toList) :
    (strchrIdx line ':' = none →
      playlist_metadata_load (line :: rest) pv nm =
        .error (.malformedPersistedRecord line)) ∧
      (strchrIdx line ':' = some 0 →
        playlist_metadata_load (line :: rest) pv nm =
          .error (.malformedPersistedRecord line)) ∧
      (∀ i, strchrIdx line ':' = some i → 0 < i →
        line.take i ≠ "mtime".toList →
        playlist_metadata_load (line :: rest) pv nm =
          .error (.malformedPersistedRecord (line.take i))) := by
  have hend2 : line ≠ ['p', 'l', 'a', 'y', 'l', 'i', 's', 't', '_', 'e', 'n', 'd'] :=
    hend
  refine ⟨?_, ?_, ?_⟩
  · intro hnone
    simp [playlist_metadata_load, loadLoop, hend2, hnone]
  · intro h0
    simp [playlist_metadata_load, loadLoop, hend2, h0]
  · intro i hi hpos hm
    have hm2 : List.take i line ≠ ['m', 't', 'i', 'm', 'e'] := hm
    simp [playlist_metadata_load, loadLoop, hend2, hi,
      if_neg (by omega : ¬ i = 0), hm2]

theorem c2_amended_witness :
    playlist_metadata_load [("bogus: 1".toList)] [] ("x".toList) =
      .error (.malformedPersistedRecord (("bogus: 1".toList).take 5)) :=
  (c2_amended_malformed_line ("bogus: 1".toList) [] [] ("x".toList)
      (by decide)).2.2 5 (by decide) (by decide) (by decide)

/-! ## Claim C8 -/

/-- C8: a record with a set (nonnegative) timestamp round-trips through
save/load to an identical record, and saving a record with an unset
(negative) timestamp emits a section without any `mtime` line. -/
theorem c8_save_load_roundtrip (N : List Char) (T : Int) :
    (0 ≤ T →
      loadPlaylistSection (playlist_vector_save [⟨N, T⟩]) [] =
        .ok ([⟨N, T⟩], [])) ∧
      (T < 0 →
        playlist_vector_save [⟨N, T⟩] =
          [PLAYLIST_META_BEGIN ++ N, "playlist_end".toList]) := by
  constructor
  · intro hT
    have hsave : playlist_vector_save [⟨N, T⟩] =
        [PLAYLIST_META_BEGIN ++ N,
         ("mtime: ".toList) ++ natDigits T.toNat,
         "playlist_end".toList] := by
      simp [playlist_vector_save, hT]
    have hline : ("mtime: ".toList) ++ natDigits T.toNat =
        'm' :: 't' :: 'i' :: 'm' :: 'e' :: ':' :: ' ' :: natDigits T.toNat := rfl
    have hpe : "playlist_end".toList = 'p' :: ("laylist_end".toList) := rfl
    have hne : ('m' :: 't' :: 'i' :: 'm' :: 'e' :: ':' :: ' ' :: natDigits T.toNat) ≠
        "playlist_end".toList := by
      rw [hpe]
      simp
    have hidx : strchrIdx
        ('m' :: 't' :: 'i' :: 'm' :: 'e' :: ':' :: ' ' :: natDigits T.toNat) ':' =
        some 5 := by
      simp [strchrIdx]
    have htake : ('m' :: 't' :: 'i' :: 'm' :: 'e' :: ':' :: ' ' ::
        natDigits T.toNat).take 5 = "mtime".toList := rfl
    have hval : strtol (stripLeft (' ' :: natDigits T.toNat)) = T := by
      rw [stripLeft_space_digits, strtol_natDigits, Int.toNat_of_nonneg hT]
    have hstep1 : loadLoop
        (('m' :: 't' :: 'i' :: 'm' :: 'e' :: ':' :: ' ' :: natDigits T.toNat) ::
          ["playlist_end".toList]) ⟨N, -1⟩ =
        loadLoop ["playlist_end".toList]
          ⟨N, strtol (stripLeft (' ' :: natDigits T.toNat))⟩ := by
      conv_lhs => rw [loadLoop]
      rw [if_neg hne, hidx]
      simp only [if_neg (show ¬ (5 : Nat) = 0 by omega), if_pos htake]
      rfl
    have hstep2 : loadLoop ["playlist_end".toList]
        (⟨N, strtol (stripLeft (' ' :: natDigits T.toNat))⟩ : PlaylistInfo) =
        .ok (⟨N, strtol (stripLeft (' ' :: natDigits T.toNat))⟩, []) := by
      rw [loadLoop, if_pos rfl]
    have hload : loadLoop
        [("mtime: ".toList) ++ natDigits T.toNat, "playlist_end".toList]
        ⟨N, -1⟩ = .ok (⟨N, T⟩, []) := by
      rw [hline, hstep1, hstep2, hval]
    rw [hsave]
    simp only [loadPlaylistSection]
    rw [if_pos (List.take_left _ _), List.drop_left]
    simp only [playlist_metadata_load]
    rw [hload]
    simp [pv_UpdateOrInsert]
  · intro hT
    have hneg : ¬ 0 ≤ T := by omega
    simp [playlist_vector_save, hneg]

theorem c8_witness :
    loadPlaylistSection (playlist_vector_save [⟨"Favorites".toList, 1000⟩]) [] =
        .ok ([⟨"Favorites".toList, 1000⟩], []) ∧
      playlist_vector_save [⟨"Favorites".toList, -1⟩] =
        [PLAYLIST_META_BEGIN ++ "Favorites".toList, "playlist_end".toList] :=
  ⟨(c8_save_load_roundtrip ("Favorites".toList) 1000).1 (by decide),
   (c8_save_load_roundtrip ("Favorites".toList) (-1)).2 (by decide)⟩

end Mpd
